import Mathlib

/-!
Shallow embedding of `apps/src/lib/node/ledger/shell/process_proposal.rs`:
the `verify_header`, `process_proposal` and `revert_proposal` ABCI methods
of the Shell. External collaborators consumed by that file (transaction
deserialization, vote-extension validation, storage queries, cryptographic
checks) are modelled from the spec as opaque oracles carried by the `Shell`
state, and the control flow of the source file is translated directly.
-/

namespace ProcessProposal

/-- Modelled from the spec: the `ErrorCodes` enum lives outside this source
file; §6 of the spec gives its stable numeric table. -/
inductive ErrorCodes where
  | Ok
  | InvalidTx
  | InvalidSig
  | WasmRuntimeError
  | InvalidOrder
  | ExtraTxs
  | Undecryptable
  | InvalidVoteExtension
  deriving DecidableEq, Repr

/-- Modelled from the spec: numeric value of each error code (§6 table). -/
def ErrorCodes.into : ErrorCodes → Nat
  | .Ok => 0
  | .InvalidTx => 1
  | .InvalidSig => 2
  | .WasmRuntimeError => 3
  | .InvalidOrder => 4
  | .ExtraTxs => 5
  | .Undecryptable => 6
  | .InvalidVoteExtension => 7

/-- Modelled from the spec: `ErrorCodes::from_u32`, the partial inverse of
the numeric table; codes outside the table have no decoding. -/
def ErrorCodes.from_u32 (n : Nat) : Option ErrorCodes :=
  if n = 0 then some .Ok
  else if n = 1 then some .InvalidTx
  else if n = 2 then some .InvalidSig
  else if n = 3 then some .WasmRuntimeError
  else if n = 4 then some .InvalidOrder
  else if n = 5 then some .ExtraTxs
  else if n = 6 then some .Undecryptable
  else if n = 7 then some .InvalidVoteExtension
  else none

/-- Modelled from the spec: §7 marks codes 0-3 and 6 recoverable and
codes 4, 5, 7 unrecoverable. -/
def ErrorCodes.is_recoverable : ErrorCodes → Bool
  | .Ok => true
  | .InvalidTx => true
  | .InvalidSig => true
  | .WasmRuntimeError => true
  | .InvalidOrder => false
  | .ExtraTxs => false
  | .Undecryptable => true
  | .InvalidVoteExtension => false

/-- Per-transaction result: a numeric code plus an info message, as in the
`TxResult` values built throughout `process_single_tx`. -/
structure TxResult where
  code : Nat
  info : String
  deriving DecidableEq, Repr

/-- Modelled from the spec: a wrapper transaction as seen by this file.
The outcomes of the external checks (`validate_ciphertext`) are carried as
fields, since the scheme itself is an external capability (§4.2). Tokens,
addresses and hashes are abstracted as naturals. -/
structure WrapperTx where
  feeAmount : Nat
  feeToken : Nat
  feePayer : Nat
  tx_hash : Nat
  ciphertextValid : Bool
  deriving DecidableEq, Repr

/-- Modelled from the spec: a decrypted (or undecryptable) transaction.
`hash_commitment` is the commitment hash of its plaintext (for the
undecryptable variant, the wrapper's own `tx_hash`); `decryptsCorrectly`
is the outcome of the opaque decryption-correctness check
(`verify_decrypted_correctly`), an external primitive per §4.3/§9. -/
structure DecryptedTx where
  hash_commitment : Nat
  decryptsCorrectly : Bool
  deriving DecidableEq, Repr

/-- Modelled from the spec: one decompressed signed vote extension (§4.5
step 1). `validatorKnown`, `height` and `sigValid` feed the individual
verification of step 2; `power` is the signer's voting power read from
storage when verification succeeds. -/
structure SignedVext where
  validatorKnown : Bool
  height : Nat
  sigValid : Bool
  power : Nat
  deriving DecidableEq, Repr

/-- Modelled from the spec: a vote-extension digest, represented by the
list of extensions its decompression yields (§4.5 step 1). -/
structure VextDigest where
  exts : List SignedVext
  deriving DecidableEq, Repr

/-- Protocol transaction kinds distinguished by `process_single_tx`:
an `EthereumEvents` digest, or any other (unsupported) kind. -/
inductive ProtocolTx where
  | EthereumEvents (digest : VextDigest)
  | otherKind
  deriving DecidableEq, Repr

/-- The four tagged transaction kinds matched in `process_single_tx`. -/
inductive TxType where
  | Raw (payload : List Nat)
  | Protocol (ptx : ProtocolTx)
  | Decrypted (tx : DecryptedTx)
  | Wrapper (w : WrapperTx)
  deriving DecidableEq, Repr

/-- Modelled from the spec: the combined outcome of `Tx::try_from` and
`process_tx` on a byte string (§4.1): not deserializable, a malformed
outer wrapper or protocol signature (with its error message), or a
decoded transaction. -/
inductive DecodeResult where
  | notDeserializable
  | invalidSigErr (msg : String)
  | decoded (t : TxType)
  deriving DecidableEq, Repr

/-- The shell's read-only view for one verification call: the storage
snapshot (`tx_queue`, `last_height`, epoch, voting power and balance
queries of §6) together with the external oracles modelled from the spec
(deserialization and the tx-bytes hash used in one error message). -/
structure Shell where
  tx_queue : List WrapperTx
  last_height : Nat
  getEpochFn : Nat → Nat
  totalVotingPowerFn : Nat → Nat
  balanceFn : Nat → Nat → Option Nat
  decode : List Nat → DecodeResult
  hashTx : List Nat → Nat

/-- Modelled from the spec: `FractionalVotingPower::new(power, total)` is
the exact rational `power / total` (§3). -/
def FractionalVotingPower.new (power total_power : Nat) : ℚ :=
  (power : ℚ) / (total_power : ℚ)

/-- Modelled from the spec: the two-thirds comparison constant (§3). -/
def FractionalVotingPower.TWO_THIRDS : ℚ := 2 / 3

/-- Modelled from the spec: individual verification of one decompressed
extension (§4.5 step 2): the signer must be a known active validator, the
declared height must equal the last committed height, and the signature
must verify; on success the signer's voting power is returned. This is
the per-element behaviour of `validate_eth_events_vext_list`. -/
def validateVext (s : Shell) (e : SignedVext) : Option Nat :=
  if e.validatorKnown && (e.height == s.last_height) && e.sigValid then
    some e.power
  else
    none

/-- The accumulation loop of `process_single_tx` (the `all` over
`valid_extensions` that adds `FractionalVotingPower::new(power, total)`
into `voting_power`): it stops at the first invalid extension, returning
`none`; if every extension verifies it returns the accumulated power. -/
def accumulateVotingPower (s : Shell) (total_power : Nat) :
    List SignedVext → Option ℚ
  | [] => some 0
  | e :: rest =>
    match validateVext s e with
    | some p =>
      match accumulateVotingPower s total_power rest with
      | some acc => some (acc + FractionalVotingPower.new p total_power)
      | none => none
    | none => none

/-- The `ProtocolTxType::EthereumEvents` arm of `process_single_tx`:
decompress and validate the digest, accumulate fractional voting power,
and accept only above the two-thirds threshold. -/
def processEthEventsDigest (s : Shell) (d : VextDigest) : TxResult :=
  let total_power := s.totalVotingPowerFn (s.getEpochFn s.last_height)
  match accumulateVotingPower s total_power d.exts with
  | some voting_power =>
    if FractionalVotingPower.TWO_THIRDS < voting_power then
      { code := ErrorCodes.Ok.into
        info := "Process proposal accepted this transaction" }
    else
      { code := ErrorCodes.InvalidVoteExtension.into
        info := "Process proposal rejected this proposal because the backing stake of the vote extensions published in the proposal was insufficient" }
  | none =>
    { code := ErrorCodes.InvalidVoteExtension.into
      info := "Process proposal rejected this proposal because at least one of the vote extensions included was invalid." }

/-- `process_single_tx`: classify one byte string and validate it. The
mutable tx-queue iterator is passed as the list of entries not yet
consumed and the mutable digest counter as a natural; both are returned
updated alongside the `TxResult`. -/
def process_single_tx (s : Shell) (tx_bytes : List Nat)
    (tx_queue : List WrapperTx) (eth_ev_digest_num : Nat) :
    TxResult × List WrapperTx × Nat :=
  match s.decode tx_bytes with
  | .notDeserializable =>
    ({ code := ErrorCodes.InvalidTx.into
       info := "The submitted transaction was not deserializable" },
     tx_queue, eth_ev_digest_num)
  | .invalidSigErr msg =>
    ({ code := ErrorCodes.InvalidSig.into, info := msg },
     tx_queue, eth_ev_digest_num)
  | .decoded t =>
    match t with
    | .Raw _ =>
      ({ code := ErrorCodes.InvalidTx.into
         info := "Transaction rejected: Non-encrypted transactions are not supported" },
       tx_queue, eth_ev_digest_num)
    | .Protocol ptx =>
      match ptx with
      | .EthereumEvents digest =>
        (processEthEventsDigest s digest, tx_queue, eth_ev_digest_num + 1)
      | .otherKind =>
        ({ code := ErrorCodes.InvalidTx.into
           info := "Unsupported protocol transaction type" },
         tx_queue, eth_ev_digest_num)
    | .Decrypted tx =>
      match tx_queue with
      | wrapper :: rest =>
        if wrapper.tx_hash ≠ tx.hash_commitment then
          ({ code := ErrorCodes.InvalidOrder.into
             info := "Process proposal rejected a decrypted transaction that violated the tx order determined in the previous block" },
           rest, eth_ev_digest_num)
        else if tx.decryptsCorrectly then
          ({ code := ErrorCodes.Ok.into
             info := "Process Proposal accepted this transaction" },
           rest, eth_ev_digest_num)
        else
          ({ code := ErrorCodes.InvalidTx.into
             info := "The encrypted payload of tx was incorrectly marked as un-decryptable" },
           rest, eth_ev_digest_num)
      | [] =>
        ({ code := ErrorCodes.ExtraTxs.into
           info := "Received more decrypted txs than expected" },
         [], eth_ev_digest_num)
    | .Wrapper w =>
      if !w.ciphertextValid then
        ({ code := ErrorCodes.InvalidTx.into
           info := "The ciphertext of the wrapped tx " ++ toString (s.hashTx tx_bytes) ++ " is invalid" },
         tx_queue, eth_ev_digest_num)
      else
        let balance := (s.balanceFn w.feeToken w.feePayer).getD 0
        if w.feeAmount ≤ balance then
          ({ code := ErrorCodes.Ok.into
             info := "Process proposal accepted this transaction" },
           tx_queue, eth_ev_digest_num)
        else
          ({ code := ErrorCodes.InvalidTx.into
             info := "The address given does not have sufficient balance to pay fee" },
           tx_queue, eth_ev_digest_num)

/-- The `map` over `req.txs` in `process_proposal`, with the tx-queue
iterator and the digest counter threaded through in proposal order;
returns the per-transaction results plus the final digest count. -/
def processTxList (s : Shell) :
    List (List Nat) → List WrapperTx → Nat → List TxResult × Nat
  | [], _, n => ([], n)
  | tb :: rest, queue, n =>
    let step := process_single_tx s tb queue n
    let tail_out := processTxList s rest step.2.1 step.2.2
    (step.1 :: tail_out.1, tail_out.2)

/-- The `!error.is_recoverable()` test of `process_proposal` applied to
one result, after decoding the numeric code. The `none` branch of the
decoding is unreachable for results produced by `process_single_tx`
(proved below); the source expresses this with an `expect`. -/
def resultUnrecoverable (r : TxResult) : Bool :=
  match ErrorCodes.from_u32 r.code with
  | some e => ! e.is_recoverable
  | none => false

/-- The fields of `RequestProcessProposal` read by `process_proposal`
(proposer, height and hash appear only in log lines). -/
structure RequestProcessProposal where
  proposer_address : List Nat
  height : Nat
  hash : List Nat
  txs : List (List Nat)
  deriving DecidableEq, Repr

/-- Overall verdict of a proposal. -/
inductive ProposalStatus where
  | Accept
  | Reject
  deriving DecidableEq, Repr

/-- The response of `process_proposal`: the verdict plus one result per
transaction. -/
structure ResponseProcessProposal where
  status : ProposalStatus
  tx_results : List TxResult
  deriving DecidableEq, Repr

/-- `process_proposal`: check every transaction in order, then reject iff
the digest count differs from one or any per-transaction result is
unrecoverable. -/
def process_proposal (s : Shell) (req : RequestProcessProposal) :
    ResponseProcessProposal :=
  let out := processTxList s req.txs s.tx_queue 0
  let invalid_num_of_eth_ev_digests : Bool := out.2 != 1
  let invalid_txs : Bool := out.1.any resultUnrecoverable
  { status :=
      if invalid_num_of_eth_ev_digests || invalid_txs then
        ProposalStatus.Reject
      else
        ProposalStatus.Accept
    tx_results := out.1 }

/-- Request of `verify_header`; its content is ignored by the method. -/
inductive VerifyHeaderRequest where
  | mk
  deriving DecidableEq, Repr

/-- Response of `verify_header`; the method returns `Default::default()`,
the accepting default. -/
inductive VerifyHeaderResponse where
  | default_response
  deriving DecidableEq, Repr

/-- Request of `revert_proposal`; its content is ignored by the method. -/
inductive RevertProposalRequest where
  | mk
  deriving DecidableEq, Repr

/-- Response of `revert_proposal`; the method returns
`Default::default()`. -/
inductive RevertProposalResponse where
  | default_response
  deriving DecidableEq, Repr

/-- `verify_header` returns the default response for every request and
reads nothing from the shell. -/
def verify_header (_s : Shell) (_req : VerifyHeaderRequest) :
    VerifyHeaderResponse :=
  VerifyHeaderResponse.default_response

/-- `revert_proposal` takes the shell mutably in the source but its body
is just `Default::default()`; in state-passing form it returns the
default response and the shell unchanged. -/
def revert_proposal (s : Shell) (_req : RevertProposalRequest) :
    RevertProposalResponse × Shell :=
  (RevertProposalResponse.default_response, s)

/-- State-passing form of the `process_proposal` call: the source method
borrows the shell immutably, so the observable state after the call is
the state before it. -/
def process_proposal_call (s : Shell) (req : RequestProcessProposal) :
    ResponseProcessProposal × Shell :=
  (process_proposal s req, s)

/-- The accumulated voting power of a fully valid digest, written as the
plain sum of the fractional powers of its extensions. -/
def digestPowerSum (total_power : Nat) (exts : List SignedVext) : ℚ :=
  (exts.map (fun e => FractionalVotingPower.new e.power total_power)).sum

/-- Concrete wrapper transaction used to evaluate the theorems below. -/
def wWrapper : WrapperTx :=
  { feeAmount := 5, feeToken := 1, feePayer := 2, tx_hash := 11,
    ciphertextValid := true }

/-- Concrete decrypted transaction whose commitment matches `wWrapper`. -/
def wDecTx : DecryptedTx :=
  { hash_commitment := 11, decryptsCorrectly := true }

/-- Concrete extension that passes individual verification and carries
seventy percent of the total voting power of the concrete shell. -/
def wVextGood : SignedVext :=
  { validatorKnown := true, height := 1, sigValid := true, power := 70 }

/-- Concrete extension with an invalid signature. -/
def wVextBad : SignedVext :=
  { validatorKnown := true, height := 1, sigValid := false, power := 70 }

/-- Digest whose sole extension verifies with power seventy of a hundred. -/
def wDigestGood : VextDigest := { exts := [wVextGood] }

/-- Digest whose sole extension fails individual verification. -/
def wDigestBad : VextDigest := { exts := [wVextBad] }

/-- Concrete shell used to evaluate the theorems below: last committed
height one, total voting power one hundred, every balance ten, and a
decoder mapping small byte strings to each transaction kind. -/
def wShell : Shell :=
  { tx_queue := [wWrapper]
    last_height := 1
    getEpochFn := fun _ => 0
    totalVotingPowerFn := fun _ => 100
    balanceFn := fun _ _ => some 10
    decode := fun b =>
      if b = [1] then DecodeResult.decoded (TxType.Raw [])
      else if b = [2] then DecodeResult.decoded (TxType.Decrypted wDecTx)
      else if b = [3] then DecodeResult.decoded (TxType.Wrapper wWrapper)
      else if b = [4] then
        DecodeResult.decoded (TxType.Protocol (ProtocolTx.EthereumEvents wDigestGood))
      else if b = [5] then
        DecodeResult.decoded (TxType.Protocol (ProtocolTx.EthereumEvents wDigestBad))
      else if b = [6] then
        DecodeResult.invalidSigErr "Wrapper transactions must be signed"
      else DecodeResult.notDeserializable
    hashTx := fun _ => 7 }

/-- Concrete request holding a single raw transaction (digest count 0). -/
def wReqRaw : RequestProcessProposal :=
  { proposer_address := [], height := 3, hash := [], txs := [[1]] }

/-- Concrete request holding one good digest and one solvent wrapper. -/
def wReqAccept : RequestProcessProposal :=
  { proposer_address := [], height := 3, hash := [], txs := [[4], [3]] }

/-- Concrete request holding a single failing digest. -/
def wReqBadDigest : RequestProcessProposal :=
  { proposer_address := [], height := 3, hash := [], txs := [[5]] }

theorem validateVext_eq_some_of_isSome (s : Shell) (e : SignedVext)
    (h : (validateVext s e).isSome) : validateVext s e = some e.power := by
  unfold validateVext at h ⊢
  split_ifs at h ⊢ with hc
  · rfl
  · simp at h

theorem accumulateVotingPower_eq_sum (s : Shell) (total_power : Nat)
    (l : List SignedVext) (h : ∀ e ∈ l, (validateVext s e).isSome) :
    accumulateVotingPower s total_power l =
      some (digestPowerSum total_power l) := by
  induction l with
  | nil => simp [accumulateVotingPower, digestPowerSum]
  | cons e rest ih =>
    have he := validateVext_eq_some_of_isSome s e (h e (by simp))
    have hrest := ih (fun x hx => h x (by simp [hx]))
    simp only [accumulateVotingPower, he, hrest, digestPowerSum,
      List.map_cons, List.sum_cons]
    rw [add_comm]

theorem accumulateVotingPower_eq_none (s : Shell) (total_power : Nat)
    (l : List SignedVext) (h : ∃ e ∈ l, validateVext s e = none) :
    accumulateVotingPower s total_power l = none := by
  induction l with
  | nil => simp at h
  | cons e rest ih =>
    rcases h with ⟨x, hx, hnone⟩
    rcases List.mem_cons.mp hx with hx | hx
    · subst hx
      simp [accumulateVotingPower, hnone]
    · unfold accumulateVotingPower
      cases hv : validateVext s e with
      | none => rfl
      | some p => rw [ih ⟨x, hx, hnone⟩]

theorem accumulateVotingPower_isSome_all (s : Shell) (total_power : Nat)
    (l : List SignedVext) (h : (accumulateVotingPower s total_power l).isSome) :
    ∀ e ∈ l, (validateVext s e).isSome := by
  induction l with
  | nil => simp
  | cons e rest ih =>
    intro x hx
    unfold accumulateVotingPower at h
    cases hv : validateVext s e with
    | none => rw [hv] at h; simp at h
    | some p =>
      rw [hv] at h
      rcases List.mem_cons.mp hx with hx | hx
      · subst hx; simp [hv]
      · cases hr : accumulateVotingPower s total_power rest with
        | none => rw [hr] at h; simp at h
        | some acc => exact ih (by simp [hr]) x hx

theorem resultUnrecoverable_iff (r : TxResult) :
    resultUnrecoverable r = true ↔
      (r.code = 4 ∨ r.code = 5 ∨ r.code = 7) := by
  unfold resultUnrecoverable ErrorCodes.from_u32
  split_ifs with h0 h1 h2 h3 h4 h5 h6 h7 <;>
    simp_all [ErrorCodes.is_recoverable]

theorem processTxList_length (s : Shell) (l : List (List Nat))
    (queue : List WrapperTx) (n : Nat) :
    (processTxList s l queue n).1.length = l.length := by
  induction l generalizing queue n with
  | nil => rfl
  | cons tb rest ih => simp [processTxList, ih]

theorem processEthEventsDigest_code (s : Shell) (d : VextDigest) :
    (processEthEventsDigest s d).code = 0 ∨
      (processEthEventsDigest s d).code = 7 := by
  unfold processEthEventsDigest
  cases h : accumulateVotingPower s
      (s.totalVotingPowerFn (s.getEpochFn s.last_height)) d.exts with
  | none => right; simp [h, ErrorCodes.into]
  | some vp =>
    by_cases hlt : FractionalVotingPower.TWO_THIRDS < vp
    · left; simp [h, hlt, ErrorCodes.into]
    · right; simp [h, hlt, ErrorCodes.into]

theorem process_single_tx_code_valid (s : Shell) (b : List Nat)
    (queue : List WrapperTx) (n : Nat) :
    (ErrorCodes.from_u32 (process_single_tx s b queue n).1.code).isSome = true := by
  unfold process_single_tx
  cases s.decode b with
  | notDeserializable => rfl
  | invalidSigErr msg => rfl
  | decoded t =>
    cases t with
    | Raw payload => rfl
    | Protocol ptx =>
      cases ptx with
      | EthereumEvents d =>
        rcases processEthEventsDigest_code s d with h | h <;>
          simp [h, ErrorCodes.from_u32]
      | otherKind => rfl
    | Decrypted tx =>
      cases queue with
      | nil => rfl
      | cons w rest =>
        by_cases h : w.tx_hash ≠ tx.hash_commitment
        · simp [h, ErrorCodes.into, ErrorCodes.from_u32]
        · by_cases hd : tx.decryptsCorrectly <;>
            simp [h, hd, ErrorCodes.into, ErrorCodes.from_u32]
    | Wrapper w =>
      by_cases hc : w.ciphertextValid
      · by_cases hf : w.feeAmount ≤ (s.balanceFn w.feeToken w.feePayer).getD 0 <;>
          simp [hc, hf, ErrorCodes.into, ErrorCodes.from_u32]
      · simp [hc, ErrorCodes.into, ErrorCodes.from_u32]

/-- C1: `process_proposal` returns `Reject` if and only if the number of
EthereumEvents vote-extension digests counted over the proposal is not
exactly one, or some per-transaction result carries an unrecoverable code
(4 InvalidOrder, 5 ExtraTxs or 7 InvalidVoteExtension); in every other
case it returns `Accept`, and a digest count other than one forces
`Reject` regardless of the other transactions. -/
theorem C1_reject_iff (s : Shell) (req : RequestProcessProposal) :
    ((process_proposal s req).status = ProposalStatus.Reject ↔
      ((processTxList s req.txs s.tx_queue 0).2 ≠ 1 ∨
        ∃ r ∈ (process_proposal s req).tx_results,
          r.code = 4 ∨ r.code = 5 ∨ r.code = 7)) ∧
    ((process_proposal s req).status = ProposalStatus.Accept ↔
      ¬ ((processTxList s req.txs s.tx_queue 0).2 ≠ 1 ∨
        ∃ r ∈ (process_proposal s req).tx_results,
          r.code = 4 ∨ r.code = 5 ∨ r.code = 7)) ∧
    ((processTxList s req.txs s.tx_queue 0).2 ≠ 1 →
      (process_proposal s req).status = ProposalStatus.Reject) := by
  have key : ((processTxList s req.txs s.tx_queue 0).2 != 1 ||
      (processTxList s req.txs s.tx_queue 0).1.any resultUnrecoverable) = true ↔
      ((processTxList s req.txs s.tx_queue 0).2 ≠ 1 ∨
        ∃ r ∈ (processTxList s req.txs s.tx_queue 0).1,
          r.code = 4 ∨ r.code = 5 ∨ r.code = 7) := by
    simp [List.any_eq_true, resultUnrecoverable_iff]
  have main : (process_proposal s req).status = ProposalStatus.Reject ↔
      ((processTxList s req.txs s.tx_queue 0).2 ≠ 1 ∨
        ∃ r ∈ (processTxList s req.txs s.tx_queue 0).1,
          r.code = 4 ∨ r.code = 5 ∨ r.code = 7) := by
    rw [← key]
    simp only [process_proposal]
    by_cases hc : ((processTxList s req.txs s.tx_queue 0).2 != 1 ||
        (processTxList s req.txs s.tx_queue 0).1.any resultUnrecoverable) = true
    · simp [hc]
    · simp [hc]
  have dichot : (process_proposal s req).status = ProposalStatus.Accept ∨
      (process_proposal s req).status = ProposalStatus.Reject := by
    cases (process_proposal s req).status <;> simp
  refine ⟨main, ?_, fun h => main.mpr (Or.inl h)⟩
  constructor
  · intro h hcond
    have := main.mpr hcond
    rw [h] at this
    exact absurd this (by simp)
  · intro h
    rcases dichot with ha | hr
    · exact ha
    · exact absurd (main.mp hr) h

/-- C1 witness: a proposal holding a single raw transaction has digest
count zero and is rejected. -/
theorem C1_reject_iff_witness :
    (process_proposal wShell wReqRaw).status = ProposalStatus.Reject :=
  (C1_reject_iff wShell wReqRaw).2.2 (by decide)

/-- C2: for a digest all of whose decompressed extensions pass individual
verification, the result is `Ok` iff the accumulated exact rational
voting power strictly exceeds two thirds of total voting power for the
current epoch; if it is at most two thirds the result is the
insufficient-backing-stake `InvalidVoteExtension`. -/
theorem C2_threshold (s : Shell) (d : VextDigest)
    (hall : ∀ e ∈ d.exts, (validateVext s e).isSome) :
    (processEthEventsDigest s d =
        { code := 0, info := "Process proposal accepted this transaction" } ↔
      FractionalVotingPower.TWO_THIRDS <
        digestPowerSum (s.totalVotingPowerFn (s.getEpochFn s.last_height))
          d.exts) ∧
    (¬ FractionalVotingPower.TWO_THIRDS <
        digestPowerSum (s.totalVotingPowerFn (s.getEpochFn s.last_height))
          d.exts →
      processEthEventsDigest s d =
        { code := 7, info := "Process proposal rejected this proposal because the backing stake of the vote extensions published in the proposal was insufficient" }) := by
  have hacc := accumulateVotingPower_eq_sum s
    (s.totalVotingPowerFn (s.getEpochFn s.last_height)) d.exts hall
  by_cases hlt : FractionalVotingPower.TWO_THIRDS <
      digestPowerSum (s.totalVotingPowerFn (s.getEpochFn s.last_height)) d.exts
  · constructor
    · simp [processEthEventsDigest, hacc, hlt, ErrorCodes.into]
    · intro hcontra; exact absurd hlt hcontra
  · constructor
    · simp [processEthEventsDigest, hacc, hlt, ErrorCodes.into]
    · intro _; simp [processEthEventsDigest, hacc, hlt, ErrorCodes.into]

/-- C2 witness: a digest whose sole valid signer holds seventy of a
hundred total voting power yields `Ok`. -/
theorem C2_threshold_witness :
    processEthEventsDigest wShell wDigestGood =
      { code := 0, info := "Process proposal accepted this transaction" } := by
  have hall : ∀ e ∈ wDigestGood.exts, (validateVext wShell e).isSome := by
    decide
  refine (C2_threshold wShell wDigestGood hall).1.mpr ?_
  norm_num [FractionalVotingPower.TWO_THIRDS, FractionalVotingPower.new,
    digestPowerSum, wDigestGood, wVextGood, wShell]

/-- C3: if at least one decompressed extension fails individual
verification the result is the at-least-one-invalid
`InvalidVoteExtension`, and an `Ok` result requires every decompressed
extension to verify. -/
theorem C3_all_or_nothing (s : Shell) (d : VextDigest) :
    ((∃ e ∈ d.exts, validateVext s e = none) →
      processEthEventsDigest s d =
        { code := 7, info := "Process proposal rejected this proposal because at least one of the vote extensions included was invalid." }) ∧
    ((processEthEventsDigest s d).code = 0 →
      ∀ e ∈ d.exts, (validateVext s e).isSome) := by
  constructor
  · intro h
    have hacc := accumulateVotingPower_eq_none s
      (s.totalVotingPowerFn (s.getEpochFn s.last_height)) d.exts h
    simp [processEthEventsDigest, hacc, ErrorCodes.into]
  · intro h
    cases hacc : accumulateVotingPower s
        (s.totalVotingPowerFn (s.getEpochFn s.last_height)) d.exts with
    | none => simp [processEthEventsDigest, hacc, ErrorCodes.into] at h
    | some vp =>
      exact accumulateVotingPower_isSome_all s
        (s.totalVotingPowerFn (s.getEpochFn s.last_height)) d.exts
        (by simp [hacc])

/-- C3 witness: a digest whose sole extension has an invalid signature is
wholly rejected with the at-least-one-invalid message. -/
theorem C3_all_or_nothing_witness :
    processEthEventsDigest wShell wDigestBad =
      { code := 7, info := "Process proposal rejected this proposal because at least one of the vote extensions included was invalid." } :=
  (C3_all_or_nothing wShell wDigestBad).1 ⟨wVextBad, by decide, by decide⟩

/-- C4: a decrypted (or undecryptable) transaction consumes exactly one
queue-cursor entry regardless of outcome, leaves the digest counter
unchanged, and yields `ExtraTxs` when the cursor is exhausted, else
`InvalidOrder` when the commitment hash differs from the consumed entry's
`tx_hash` (even if otherwise well-formed), else `Ok` when the
decryption-correctness check passes, else `InvalidTx`. -/
theorem C4_decrypted_order (s : Shell) (b : List Nat) (tx : DecryptedTx)
    (queue : List WrapperTx) (n : Nat)
    (hdec : s.decode b = DecodeResult.decoded (TxType.Decrypted tx)) :
    (process_single_tx s b queue n).2.1 = queue.tail ∧
    (process_single_tx s b queue n).2.2 = n ∧
    (queue = [] →
      (process_single_tx s b queue n).1 =
        { code := 5, info := "Received more decrypted txs than expected" }) ∧
    (∀ w rest, queue = w :: rest →
      (w.tx_hash ≠ tx.hash_commitment →
        (process_single_tx s b queue n).1 =
          { code := 4, info := "Process proposal rejected a decrypted transaction that violated the tx order determined in the previous block" }) ∧
      (w.tx_hash = tx.hash_commitment → tx.decryptsCorrectly = true →
        (process_single_tx s b queue n).1 =
          { code := 0, info := "Process Proposal accepted this transaction" }) ∧
      (w.tx_hash = tx.hash_commitment → tx.decryptsCorrectly = false →
        (process_single_tx s b queue n).1 =
          { code := 1, info := "The encrypted payload of tx was incorrectly marked as un-decryptable" })) := by
  cases queue with
  | nil =>
    have hred : process_single_tx s b [] n =
        ({ code := 5, info := "Received more decrypted txs than expected" },
         [], n) := by
      unfold process_single_tx
      rw [hdec]
      rfl
    refine ⟨by simp [hred], by simp [hred], fun _ => by simp [hred], ?_⟩
    intro w rest hcontra
    exact absurd hcontra (by simp)
  | cons w rest =>
    by_cases hh : w.tx_hash ≠ tx.hash_commitment
    · have hred : process_single_tx s b (w :: rest) n =
          ({ code := 4, info := "Process proposal rejected a decrypted transaction that violated the tx order determined in the previous block" },
           rest, n) := by
        unfold process_single_tx
        rw [hdec]
        simp [hh, ErrorCodes.into]
      refine ⟨by simp [hred], by simp [hred], ?_, ?_⟩
      · intro hcontra; exact absurd hcontra (by simp)
      · intro w2 rest2 heq
        injection heq with h1 h2
        subst h1; subst h2
        refine ⟨fun _ => by simp [hred], ?_, ?_⟩
        · intro heq2 _; exact absurd heq2 hh
        · intro heq2 _; exact absurd heq2 hh
    · rw [not_not] at hh
      by_cases hd : tx.decryptsCorrectly
      · have hred : process_single_tx s b (w :: rest) n =
            ({ code := 0, info := "Process Proposal accepted this transaction" },
             rest, n) := by
          unfold process_single_tx
          rw [hdec]
          simp [hh, hd, ErrorCodes.into]
        refine ⟨by simp [hred], by simp [hred], ?_, ?_⟩
        · intro hcontra; exact absurd hcontra (by simp)
        · intro w2 rest2 heq
          injection heq with h1 h2
          subst h1; subst h2
          refine ⟨fun hne => absurd hh hne, fun _ _ => by simp [hred], ?_⟩
          intro _ hfalse
          simp [hd] at hfalse
      · have hd' : tx.decryptsCorrectly = false := by
          simpa using hd
        have hred : process_single_tx s b (w :: rest) n =
            ({ code := 1, info := "The encrypted payload of tx was incorrectly marked as un-decryptable" },
             rest, n) := by
          unfold process_single_tx
          rw [hdec]
          simp [hh, hd', ErrorCodes.into]
        refine ⟨by simp [hred], by simp [hred], ?_, ?_⟩
        · intro hcontra; exact absurd hcontra (by simp)
        · intro w2 rest2 heq
          injection heq with h1 h2
          subst h1; subst h2
          refine ⟨fun hne => absurd hh hne, ?_, fun _ _ => by simp [hred]⟩
          intro _ htrue
          simp [hd'] at htrue

/-- C4 witness: with a one-entry queue whose `tx_hash` matches the
decrypted transaction's commitment and a passing correctness check, the
entry is consumed and the result is `Ok`. -/
theorem C4_decrypted_order_witness :
    (process_single_tx wShell [2] [wWrapper] 0).2.1 = [] ∧
    (process_single_tx wShell [2] [wWrapper] 0).1 =
      { code := 0, info := "Process Proposal accepted this transaction" } := by
  have h := C4_decrypted_order wShell [2] wDecTx [wWrapper] 0 (by decide)
  exact ⟨h.1, (h.2.2.2 wWrapper [] rfl).2.1 (by decide) (by decide)⟩

/-- C5: for a wrapper transaction, failed ciphertext validation yields
`InvalidTx`; otherwise the fee payer's balance is read with an absent
account treated as zero, and the result is `Ok` iff the fee amount is at
most the balance, else the insufficient-balance `InvalidTx`; the queue
cursor and digest counter are untouched. -/
theorem C5_wrapper_fee (s : Shell) (b : List Nat) (w : WrapperTx)
    (queue : List WrapperTx) (n : Nat)
    (hdec : s.decode b = DecodeResult.decoded (TxType.Wrapper w)) :
    (process_single_tx s b queue n).2.1 = queue ∧
    (process_single_tx s b queue n).2.2 = n ∧
    (w.ciphertextValid = false →
      (process_single_tx s b queue n).1 =
        { code := 1
          info := "The ciphertext of the wrapped tx " ++ toString (s.hashTx b) ++ " is invalid" }) ∧
    (w.ciphertextValid = true →
      (w.feeAmount ≤ (s.balanceFn w.feeToken w.feePayer).getD 0 →
        (process_single_tx s b queue n).1 =
          { code := 0, info := "Process proposal accepted this transaction" }) ∧
      ((s.balanceFn w.feeToken w.feePayer).getD 0 < w.feeAmount →
        (process_single_tx s b queue n).1 =
          { code := 1, info := "The address given does not have sufficient balance to pay fee" })) ∧
    (s.balanceFn w.feeToken w.feePayer = none → w.ciphertextValid = true →
      ((process_single_tx s b queue n).1 =
          { code := 0, info := "Process proposal accepted this transaction" } ↔
        w.feeAmount = 0)) := by
  have hred : process_single_tx s b queue n =
      (if !w.ciphertextValid then
         ({ code := 1
            info := "The ciphertext of the wrapped tx " ++ toString (s.hashTx b) ++ " is invalid" },
          queue, n)
       else if w.feeAmount ≤ (s.balanceFn w.feeToken w.feePayer).getD 0 then
         ({ code := 0, info := "Process proposal accepted this transaction" },
          queue, n)
       else
         ({ code := 1, info := "The address given does not have sufficient balance to pay fee" },
          queue, n)) := by
    unfold process_single_tx
    rw [hdec]
    rfl
  rw [hred]
  by_cases hc : w.ciphertextValid
  · by_cases hf : w.feeAmount ≤ (s.balanceFn w.feeToken w.feePayer).getD 0
    · refine ⟨by simp [hc, hf], by simp [hc, hf], ?_, ?_, ?_⟩
      · intro hfalse; rw [hc] at hfalse; cases hfalse
      · exact fun _ => ⟨fun _ => by simp [hc, hf], fun hlt => absurd hf (by omega)⟩
      · intro hnone _
        rw [hnone] at hf ⊢
        simp only [Option.getD_none] at hf
        simp [hc, hf]
        omega
    · refine ⟨by simp [hc, hf], by simp [hc, hf], ?_, ?_, ?_⟩
      · intro hfalse; rw [hc] at hfalse; cases hfalse
      · exact fun _ => ⟨fun hle => absurd hle hf, fun _ => by simp [hc, hf]⟩
      · intro hnone _
        rw [hnone] at hf ⊢
        simp only [Option.getD_none] at hf
        simp [hc, hf]
        omega
  · have hc' : w.ciphertextValid = false := by simpa using hc
    refine ⟨by simp [hc'], by simp [hc'], fun _ => by simp [hc'], ?_, ?_⟩
    · intro htrue; rw [hc'] at htrue; cases htrue
    · intro _ htrue; rw [hc'] at htrue; cases htrue

/-- C5 witness: a wrapper with valid ciphertext, fee five and balance ten
is accepted. -/
theorem C5_wrapper_fee_witness :
    (process_single_tx wShell [3] [] 0).1 =
      { code := 0, info := "Process proposal accepted this transaction" } := by
  have h := C5_wrapper_fee wShell [3] wWrapper [] 0 (by decide)
  exact (h.2.2.2.1 (by decide)).1 (by decide)

/-- C6: the per-transaction result list is exactly the list produced by
the in-order scan, with one entry per input transaction, and it is
returned in full whatever the verdict. -/
theorem C6_full_results (s : Shell) (req : RequestProcessProposal) :
    (process_proposal s req).tx_results =
      (processTxList s req.txs s.tx_queue 0).1 ∧
    (process_proposal s req).tx_results.length = req.txs.length :=
  ⟨rfl, processTxList_length s req.txs s.tx_queue 0⟩

/-- C6 witness: a two-transaction proposal yields two results. -/
theorem C6_full_results_witness :
    (process_proposal wShell wReqAccept).tx_results.length = 2 :=
  (C6_full_results wShell wReqAccept).2

/-- C7: on every byte string the single-transaction check returns a typed
result: non-deserializable bytes yield `InvalidTx`, a malformed outer
wrapper or protocol signature yields `InvalidSig` with its message, a raw
transaction always yields `InvalidTx`, and the returned code is always in
the known code table. -/
theorem C7_typed_total (s : Shell) (b : List Nat) (queue : List WrapperTx)
    (n : Nat) :
    (s.decode b = DecodeResult.notDeserializable →
      (process_single_tx s b queue n).1 =
        { code := 1, info := "The submitted transaction was not deserializable" }) ∧
    (∀ msg, s.decode b = DecodeResult.invalidSigErr msg →
      (process_single_tx s b queue n).1 = { code := 2, info := msg }) ∧
    (∀ payload, s.decode b = DecodeResult.decoded (TxType.Raw payload) →
      (process_single_tx s b queue n).1 =
        { code := 1, info := "Transaction rejected: Non-encrypted transactions are not supported" }) ∧
    (ErrorCodes.from_u32 (process_single_tx s b queue n).1.code).isSome = true := by
  refine ⟨?_, ?_, ?_, process_single_tx_code_valid s b queue n⟩
  · intro h
    unfold process_single_tx
    rw [h]
    rfl
  · intro msg h
    unfold process_single_tx
    rw [h]
    rfl
  · intro payload h
    unfold process_single_tx
    rw [h]
    rfl

/-- C7 witness: bytes the decoder does not recognize yield the
not-deserializable `InvalidTx`. -/
theorem C7_typed_total_witness :
    (process_single_tx wShell [9] [] 0).1 =
      { code := 1, info := "The submitted transaction was not deserializable" } :=
  (C7_typed_total wShell [9] [] 0).1 (by decide)

/-- C8: `verify_header` always returns the accepting default response,
`revert_proposal` always returns the default response and leaves the
state unchanged, and the `process_proposal` call (which borrows the shell
immutably in the source) leaves the state unchanged. -/
theorem C8_stateless (s : Shell) (rv : VerifyHeaderRequest)
    (rr : RevertProposalRequest) (req : RequestProcessProposal) :
    verify_header s rv = VerifyHeaderResponse.default_response ∧
    (revert_proposal s rr).1 = RevertProposalResponse.default_response ∧
    (revert_proposal s rr).2 = s ∧
    (process_proposal_call s req).2 = s :=
  ⟨rfl, rfl, rfl, rfl⟩

/-- C8 witness: the stateless contract evaluated on the concrete shell. -/
theorem C8_stateless_witness :
    verify_header wShell VerifyHeaderRequest.mk =
      VerifyHeaderResponse.default_response ∧
    (revert_proposal wShell RevertProposalRequest.mk).1 =
      RevertProposalResponse.default_response ∧
    (revert_proposal wShell RevertProposalRequest.mk).2 = wShell ∧
    (process_proposal_call wShell wReqRaw).2 = wShell :=
  C8_stateless wShell VerifyHeaderRequest.mk RevertProposalRequest.mk wReqRaw

/-- C9: determinism - two invocations agreeing on every field of the
request (proposer, height, hash, transaction list) and on every component
of the storage snapshot and oracle surface (tx queue, last height, epoch
map, voting powers, balances, decoder, tx hash) produce identical
responses. -/
theorem C9_deterministic (s₁ s₂ : Shell) (r₁ r₂ : RequestProcessProposal)
    (hq : s₁.tx_queue = s₂.tx_queue)
    (hh : s₁.last_height = s₂.last_height)
    (he : s₁.getEpochFn = s₂.getEpochFn)
    (hp : s₁.totalVotingPowerFn = s₂.totalVotingPowerFn)
    (hb : s₁.balanceFn = s₂.balanceFn)
    (hd : s₁.decode = s₂.decode)
    (hx : s₁.hashTx = s₂.hashTx)
    (hra : r₁.proposer_address = r₂.proposer_address)
    (hrh : r₁.height = r₂.height)
    (hrs : r₁.hash = r₂.hash)
    (hrt : r₁.txs = r₂.txs) :
    process_proposal s₁ r₁ = process_proposal s₂ r₂ := by
  have hs : s₁ = s₂ := by
    cases s₁; cases s₂; simp_all
  have hr : r₁ = r₂ := by
    cases r₁; cases r₂; simp_all
  rw [hs, hr]

/-- C9 witness: the determinism theorem applied to two identical calls on
the concrete shell. -/
theorem C9_deterministic_witness :
    process_proposal wShell wReqAccept = process_proposal wShell wReqAccept :=
  C9_deterministic wShell wShell wReqAccept wReqAccept
    rfl rfl rfl rfl rfl rfl rfl rfl rfl rfl rfl

/-- C10: the digest counter is incremented for every EthereumEvents
protocol transaction before the digest is validated, so it counts
occurrences rather than valid digests; a proposal whose only transaction
is such a digest has digest count exactly one even when the digest fails
validation, and is then rejected only because of the unrecoverable
`InvalidVoteExtension` result. -/
theorem C10_counter (s : Shell) (b : List Nat) (d : VextDigest)
    (queue : List WrapperTx) (n : Nat) (p hsh : List Nat) (ht : Nat)
    (hdec : s.decode b =
      DecodeResult.decoded (TxType.Protocol (ProtocolTx.EthereumEvents d))) :
    (process_single_tx s b queue n).2.2 = n + 1 ∧
    ((processEthEventsDigest s d).code = 7 →
      (processTxList s [b] s.tx_queue 0).2 = 1 ∧
      (process_proposal s
        { proposer_address := p, height := ht, hash := hsh, txs := [b] }).status =
        ProposalStatus.Reject) := by
  have hstep : process_single_tx s b s.tx_queue 0 =
      (processEthEventsDigest s d, s.tx_queue, 1) := by
    unfold process_single_tx
    rw [hdec]
  constructor
  · unfold process_single_tx
    rw [hdec]
  · intro h7
    have hlist : processTxList s [b] s.tx_queue 0 =
        ([processEthEventsDigest s d], 1) := by
      simp [processTxList, hstep]
    have hunrec : resultUnrecoverable (processEthEventsDigest s d) = true :=
      (resultUnrecoverable_iff _).mpr (Or.inr (Or.inr h7))
    refine ⟨by rw [hlist], ?_⟩
    simp [process_proposal, hlist, hunrec]

/-- C10 witness: a proposal whose only transaction is a digest with an
invalid signature has digest count one and is rejected. -/
theorem C10_counter_witness :
    (process_single_tx wShell [5] [] 0).2.2 = 1 ∧
    (process_proposal wShell wReqBadDigest).status = ProposalStatus.Reject := by
  have h := C10_counter wShell [5] wDigestBad [] 0 [] [] 3 (by decide)
  exact ⟨h.1, (h.2 (by decide)).2⟩

end ProcessProposal
